import Mathlib

/-!
# Descriptor-alias demo (`week2/rdiff/src/0.c`)

The program opens `cookie.txt` twice, aliases the first descriptor onto the
second with `dup2`, reads 4 bytes through the first descriptor into `buf`,
closes it, reads 6 bytes through the second descriptor into `&buf[3]`, closes
it and prints `buf` with `%s`.

`main` is embedded as a pure function over an explicit kernel state: a
descriptor table and a table of open file descriptions.  The system calls
`open`, `dup2`, `read` and `close` belong to the operating system, not to the
program; they are modelled here after their POSIX descriptions for a path
that is a regular file or a directory, opened read-only.
-/

namespace Rdiff

/-- One byte of a file or of the buffer. -/
abbrev Byte := Fin 256

/-- What an `open` can find at a path: a regular file with its bytes, or a
directory.  A directory can be opened read-only, but reading it fails. -/
inductive Node where
  | file (data : List Byte)
  | dir
deriving DecidableEq, Repr

/-- An open file description: the node it was opened on and its offset
cursor. -/
structure OFD where
  node : Node
  offset : Nat
deriving DecidableEq, Repr

/-- The kernel state seen by the process.  `fds` is the descriptor table
(index = descriptor number, entry = index of an open file description);
`ofds` is the table of open file descriptions, a freed one being `none`. -/
structure Kernel where
  fds : List (Option Nat)
  ofds : List (Option OFD)
deriving DecidableEq, Repr

namespace Kernel

/-- State at process start: descriptors 0, 1 and 2 (standard input, output and
error) share description 0, the terminal, which the program never reads. -/
def init : Kernel :=
  { fds := [some 0, some 0, some 0], ofds := [some { node := .file [], offset := 0 }] }

/-- The description index a descriptor refers to, if the descriptor is open.
A negative descriptor is never open. -/
def desc (k : Kernel) (fd : Int) : Option Nat :=
  if fd < 0 then none else (k.fds.get? fd.toNat).join

/-- The open file description behind a descriptor. -/
def ofdOf (k : Kernel) (fd : Int) : Option OFD :=
  match k.desc fd with
  | none => none
  | some d => (k.ofds.get? d).join

/-- The offset cursor a read through descriptor `fd` would start from. -/
def cursor (k : Kernel) (fd : Int) : Option Nat :=
  (k.ofdOf fd).map (·.offset)

/-- Number of descriptors that refer to description `d`. -/
def refs (k : Kernel) (d : Nat) : Nat :=
  k.fds.count (some d)

/-- Whether description `d` is still allocated. -/
def live (k : Kernel) (d : Nat) : Bool :=
  (k.ofds.get? d).join.isSome

/-- Lowest descriptor number that is not open. -/
def lowestFree : List (Option Nat) → Nat
  | [] => 0
  | none :: _ => 0
  | some _ :: rest => lowestFree rest + 1

/-- Store an entry in the descriptor table, growing the table when needed. -/
def setFd (fds : List (Option Nat)) (n : Nat) (v : Option Nat) : List (Option Nat) :=
  if n < fds.length then fds.set n v
  else fds ++ List.replicate (n - fds.length) none ++ [v]

/-- Free description `d` when no descriptor refers to it any more. -/
def release (k : Kernel) (d : Nat) : Kernel :=
  if k.refs d = 0 then { k with ofds := k.ofds.set d none } else k

/-- Model of `open(path, O_RDONLY)`.  `found` is what is at the path (`none`
when it is missing or cannot be opened).  On success, on a regular file or on
a directory alike, a fresh description with cursor 0 is installed at the
lowest free descriptor, which is returned; on failure the result is -1 and
nothing changes. -/
def «open» (k : Kernel) (found : Option Node) : Kernel × Int :=
  match found with
  | none => (k, -1)
  | some node =>
    let fd := lowestFree k.fds
    ({ fds := setFd k.fds fd (some k.ofds.length),
       ofds := k.ofds ++ [some { node := node, offset := 0 }] }, (fd : Int))

/-- Model of `close(fd)`: the descriptor is removed from the table and its
description is freed when that was the last reference.  Returns 0, or -1 when
`fd` is not an open descriptor. -/
def close (k : Kernel) (fd : Int) : Kernel × Int :=
  match k.desc fd with
  | none => (k, -1)
  | some d => (release { k with fds := setFd k.fds fd.toNat none } d, 0)

/-- Model of `dup2(oldfd, newfd)`.  Fails with -1, changing nothing, when
`oldfd` is not open or `newfd` is negative; does nothing when both are the
same open descriptor; otherwise closes `newfd` if it was open and makes it
refer to the description of `oldfd`. -/
def dup2 (k : Kernel) (oldfd newfd : Int) : Kernel × Int :=
  match k.desc oldfd with
  | none => (k, -1)
  | some d =>
    if newfd < 0 then (k, -1)
    else if oldfd = newfd then (k, newfd)
    else
      let k1 := (k.close newfd).1
      ({ k1 with fds := setFd k1.fds newfd.toNat (some d) }, newfd)

/-- Model of the kernel side of `read(fd, p, count)`.  On a regular file the
bytes from the cursor on, at most `count` of them, are handed over and the
cursor advances by their number, which is the return value.  On a descriptor
that is not open (`EBADF`) and on a directory (`EISDIR`) the result is -1,
no byte is transferred and nothing changes. -/
def read (k : Kernel) (fd : Int) (count : Nat) : Kernel × Int × List Byte :=
  match k.desc fd with
  | none => (k, -1, [])
  | some d =>
    match (k.ofds.get? d).join with
    | none => (k, -1, [])
    | some o =>
      match o.node with
      | .dir => (k, -1, [])
      | .file data =>
        let bytes := (data.drop o.offset).take count
        ({ k with ofds := k.ofds.set d (some { o with offset := o.offset + bytes.length }) },
          (bytes.length : Int), bytes)

end Kernel

/-- The array `mem` with `bytes` copied over its cells from index `off` on. -/
def blit (mem : List Byte) (off : Nat) (bytes : List Byte) : List Byte :=
  mem.take off ++ bytes ++ mem.drop (off + bytes.length)

/-- User-space side of `read`: the transferred bytes are stored in the array
starting at index `off`.  A store that would leave the array is undefined
behaviour, modelled as `none`. -/
def store (mem : List Byte) (off : Nat) (bytes : List Byte) : Option (List Byte) :=
  if off + bytes.length ≤ mem.length then some (blit mem off bytes) else none

/-- What `%s` prints for a character array: the bytes before the first zero
byte.  Without a zero byte inside the array the scan leaves it, which is
undefined behaviour, modelled as `none`. -/
def cstr : List Byte → Option (List Byte)
  | [] => none
  | b :: rest => if b = 0 then some [] else (cstr rest).map (b :: ·)

/-- The bytes of an ASCII string. -/
def ascii (s : String) : List Byte :=
  s.toList.map (fun c => Fin.ofNat c.toNat)

/-- Model of `printf("buf = %s\n", buf)`: the text written to standard output. -/
def printf (mem : List Byte) : Option (List Byte) :=
  (cstr mem).map (fun s => ascii "buf = " ++ s ++ ascii "\n")

/-- `char buf[20] = {0};` -/
def buf : List Byte := List.replicate 20 0

/-- Everything `main` goes through: the two descriptors, the kernel state and
the buffer after each statement, the values returned by the two reads, the
text printed and the exit code. -/
structure Trace where
  fd1 : Int
  fd2 : Int
  kOpen1 : Kernel
  kOpen2 : Kernel
  kDup : Kernel
  kRead1 : Kernel
  r1 : Int
  buf1 : List Byte
  kClose1 : Kernel
  kRead2 : Kernel
  r2 : Int
  buf2 : List Byte
  kClose2 : Kernel
  out : List Byte
  exitCode : Int
deriving DecidableEq, Repr

/-- The program `main`, statement by statement.  `c1` and `c2` are what the
first and the second `open` find at `cookie.txt` (`none`: the open fails). -/
def main (c1 c2 : Option Node) : Option Trace :=
  let (kOpen1, fd1) := Kernel.init.open c1
  let (kOpen2, fd2) := kOpen1.open c2
  let (kDup, _) := kOpen2.dup2 fd2 fd1
  let (kRead1, r1, bytes1) := kDup.read fd1 4
  match store buf 0 bytes1 with
  | none => none
  | some buf1 =>
    let (kClose1, _) := kRead1.close fd1
    let (kRead2, r2, bytes2) := kClose1.read fd2 6
    match store buf1 3 bytes2 with
    | none => none
    | some buf2 =>
      let (kClose2, _) := kRead2.close fd2
      match printf buf2 with
      | none => none
      | some out =>
        some { fd1 := fd1, fd2 := fd2, kOpen1 := kOpen1, kOpen2 := kOpen2, kDup := kDup,
               kRead1 := kRead1, r1 := r1, buf1 := buf1, kClose1 := kClose1,
               kRead2 := kRead2, r2 := r2, buf2 := buf2, kClose2 := kClose2,
               out := out, exitCode := 0 }

/-- A run of `main` in which `cookie.txt` is a regular file with content
`file`, so that both opens succeed on it. -/
def run (file : List Byte) : Option Trace :=
  main (some (.file file)) (some (.file file))

/-! ## Stores into the buffer and `%s` -/

/-- A store that fits in the array succeeds. -/
theorem store_eq_blit (mem : List Byte) (off : Nat) (bs : List Byte)
    (h : off + bs.length ≤ mem.length) : store mem off bs = some (blit mem off bs) := by
  simp [store, h]

theorem blit_length (mem : List Byte) (off : Nat) (bs : List Byte)
    (h : off + bs.length ≤ mem.length) : (blit mem off bs).length = mem.length := by
  simp [blit]; omega

/-- Cell by cell: a store changes the cells it covers and no other. -/
theorem blit_get (mem : List Byte) (off : Nat) (bs : List Byte) (i : Nat)
    (h : off + bs.length ≤ mem.length) :
    (blit mem off bs)[i]? =
      if off ≤ i ∧ i < off + bs.length then bs[i - off]? else mem[i]? := by
  unfold blit
  by_cases h1 : i < off
  · have : ¬ (off ≤ i ∧ i < off + bs.length) := by omega
    rw [if_neg this, List.append_assoc, List.getElem?_append_left (by simp; omega)]
    simp [List.getElem?_take, h1]
  · by_cases h2 : i < off + bs.length
    · rw [if_pos ⟨by omega, h2⟩, List.append_assoc,
        List.getElem?_append_right (by simp; omega),
        List.getElem?_append_left (by simp; omega)]
      simp
      congr 1
      omega
    · have : ¬ (off ≤ i ∧ i < off + bs.length) := by omega
      rw [if_neg this, List.getElem?_append_right (by simp; omega)]
      simp
      congr 1
      omega

/-- With a zero byte inside the array, `%s` prints the bytes before the first
one. -/
theorem cstr_of_mem : ∀ mem : List Byte, 0 ∈ mem → cstr mem = some (mem.takeWhile (· ≠ 0))
  | [], h => by simp at h
  | b :: rest, h => by
    by_cases hb : b = 0
    · simp [cstr, hb]
    · have h2 : 0 ∈ rest := by
        rcases List.mem_cons.mp h with h3 | h3
        · exact absurd h3.symm hb
        · exact h3
      simp [cstr, hb, cstr_of_mem rest h2, List.takeWhile_cons]

/-! ## Symbolic execution of `main` -/

theorem buf_length : buf.length = 20 := by simp [buf]

theorem blit_buf_length (bs : List Byte) (off : Nat) (h : off + bs.length ≤ 20) :
    (blit buf off bs).length = 20 := by
  rw [blit_length _ _ _ (by rw [buf_length]; exact h), buf_length]

theorem buf_get (i : Nat) (h : i < 20) : buf[i]? = some 0 := by
  unfold buf
  exact List.getElem?_replicate_of_lt h

/-- Two stores of at most 4 bytes at index 0 and at most 6 bytes at index 3
leave the cells from index 9 on at zero. -/
theorem blit_tail_zero (bs1 bs2 : List Byte) (h1 : bs1.length ≤ 4) (h2 : bs2.length ≤ 6)
    (i : Nat) (h9 : 9 ≤ i) (h20 : i < 20) :
    (blit (blit buf 0 bs1) 3 bs2)[i]? = some 0 := by
  have hL1 : (blit buf 0 bs1).length = 20 := blit_buf_length _ 0 (by omega)
  rw [blit_get _ _ _ _ (by rw [hL1]; omega), if_neg (by omega),
    blit_get _ _ _ _ (by rw [buf_length]; omega), if_neg (by omega)]
  exact buf_get i h20

theorem zero_mem_blit (bs1 bs2 : List Byte) (h1 : bs1.length ≤ 4) (h2 : bs2.length ≤ 6) :
    (0 : Byte) ∈ blit (blit buf 0 bs1) 3 bs2 :=
  List.getElem?_mem (blit_tail_zero bs1 bs2 h1 h2 9 (by omega) (by omega))

/-- The trace of `main` when both opens succeed, the first on any node `n` and
the second on a regular file of content `g`, written out statement by
statement. -/
theorem main_both (n : Node) (g : List Byte) :
    main (some n) (some (.file g)) =
      some { fd1 := 3, fd2 := 4,
             kOpen1 := { fds := [some 0, some 0, some 0, some 1],
                         ofds := [some ⟨.file [], 0⟩, some ⟨n, 0⟩] },
             kOpen2 := { fds := [some 0, some 0, some 0, some 1, some 2],
                         ofds := [some ⟨.file [], 0⟩, some ⟨n, 0⟩, some ⟨.file g, 0⟩] },
             kDup := { fds := [some 0, some 0, some 0, some 2, some 2],
                       ofds := [some ⟨.file [], 0⟩, none, some ⟨.file g, 0⟩] },
             kRead1 := { fds := [some 0, some 0, some 0, some 2, some 2],
                         ofds := [some ⟨.file [], 0⟩, none, some ⟨.file g, (g.take 4).length⟩] },
             r1 := ((g.take 4).length : Int),
             buf1 := blit buf 0 (g.take 4),
             kClose1 := { fds := [some 0, some 0, some 0, none, some 2],
                          ofds := [some ⟨.file [], 0⟩, none, some ⟨.file g, (g.take 4).length⟩] },
             kRead2 := { fds := [some 0, some 0, some 0, none, some 2],
                         ofds := [some ⟨.file [], 0⟩, none,
                           some ⟨.file g, (g.take 4).length
                             + ((g.drop (g.take 4).length).take 6).length⟩] },
             r2 := (((g.drop (g.take 4).length).take 6).length : Int),
             buf2 := blit (blit buf 0 (g.take 4)) 3 ((g.drop (g.take 4).length).take 6),
             kClose2 := { fds := [some 0, some 0, some 0, none, none],
                          ofds := [some ⟨.file [], 0⟩, none, none] },
             out := ascii "buf = "
               ++ (blit (blit buf 0 (g.take 4)) 3
                    ((g.drop (g.take 4).length).take 6)).takeWhile (· ≠ 0)
               ++ ascii "\n",
             exitCode := 0 } := by
  have hO1 : Kernel.init.open (some n) =
      ({ fds := [some 0, some 0, some 0, some 1],
         ofds := [some ⟨.file [], 0⟩, some ⟨n, 0⟩] }, 3) := rfl
  have hO2 : Kernel.«open» { fds := [some 0, some 0, some 0, some 1],
                             ofds := [some ⟨.file [], 0⟩, some ⟨n, 0⟩] } (some (.file g)) =
      ({ fds := [some 0, some 0, some 0, some 1, some 2],
         ofds := [some ⟨.file [], 0⟩, some ⟨n, 0⟩, some ⟨.file g, 0⟩] }, 4) := rfl
  have hD : Kernel.dup2 { fds := [some 0, some 0, some 0, some 1, some 2],
                          ofds := [some ⟨.file [], 0⟩, some ⟨n, 0⟩, some ⟨.file g, 0⟩] } 4 3 =
      ({ fds := [some 0, some 0, some 0, some 2, some 2],
         ofds := [some ⟨.file [], 0⟩, none, some ⟨.file g, 0⟩] }, 3) := rfl
  have hR1 : Kernel.read { fds := [some 0, some 0, some 0, some 2, some 2],
                           ofds := [some ⟨.file [], 0⟩, none, some ⟨.file g, 0⟩] } 3 4 =
      ({ fds := [some 0, some 0, some 0, some 2, some 2],
         ofds := [some ⟨.file [], 0⟩, none, some ⟨.file g, (g.take 4).length⟩] },
        ((g.take 4).length : Int), g.take 4) := by
    simp [Kernel.read, Kernel.desc]
  have hC1 : ∀ n : Nat, Kernel.close { fds := [some 0, some 0, some 0, some 2, some 2],
                                       ofds := [some ⟨.file [], 0⟩, none, some ⟨.file g, n⟩] } 3 =
      ({ fds := [some 0, some 0, some 0, none, some 2],
         ofds := [some ⟨.file [], 0⟩, none, some ⟨.file g, n⟩] }, 0) := fun _ => rfl
  have hR2 : ∀ n : Nat, Kernel.read { fds := [some 0, some 0, some 0, none, some 2],
                                      ofds := [some ⟨.file [], 0⟩, none, some ⟨.file g, n⟩] } 4 6 =
      ({ fds := [some 0, some 0, some 0, none, some 2],
         ofds := [some ⟨.file [], 0⟩, none, some ⟨.file g, n + ((g.drop n).take 6).length⟩] },
        (((g.drop n).take 6).length : Int), (g.drop n).take 6) := fun _ => rfl
  have hC2 : ∀ n : Nat, Kernel.close { fds := [some 0, some 0, some 0, none, some 2],
                                       ofds := [some ⟨.file [], 0⟩, none, some ⟨.file g, n⟩] } 4 =
      ({ fds := [some 0, some 0, some 0, none, none],
         ofds := [some ⟨.file [], 0⟩, none, none] }, 0) := fun _ => rfl
  have hS1 : store buf 0 (g.take 4) = some (blit buf 0 (g.take 4)) :=
    store_eq_blit _ _ _ (by rw [buf_length, List.length_take]; omega)
  have hL1 : (blit buf 0 (g.take 4)).length = 20 :=
    blit_buf_length _ 0 (by rw [List.length_take]; omega)
  have hS2 : store (blit buf 0 (g.take 4)) 3 ((g.drop (g.take 4).length).take 6) =
      some (blit (blit buf 0 (g.take 4)) 3 ((g.drop (g.take 4).length).take 6)) :=
    store_eq_blit _ _ _ (by rw [hL1, List.length_take]; omega)
  have hP : printf (blit (blit buf 0 (g.take 4)) 3 ((g.drop (g.take 4).length).take 6)) =
      some (ascii "buf = "
        ++ (blit (blit buf 0 (g.take 4)) 3
              ((g.drop (g.take 4).length).take 6)).takeWhile (· ≠ 0)
        ++ ascii "\n") := by
    rw [printf, cstr_of_mem _ (zero_mem_blit _ _ (List.length_take_le _ _)
      (List.length_take_le _ _))]
    rfl
  unfold main
  simp only [hO1, hO2, hD, hR1, hS1, hC1, hR2, hS2, hC2, hP]

/-- The trace of `main` when both opens succeed and the second one is on a
directory: the descriptors are aliased and closed as on a regular file, but
both reads fail and the buffer stays zero. -/
theorem main_dir (n : Node) :
    main (some n) (some .dir) =
      some { fd1 := 3, fd2 := 4,
             kOpen1 := { fds := [some 0, some 0, some 0, some 1],
                         ofds := [some ⟨.file [], 0⟩, some ⟨n, 0⟩] },
             kOpen2 := { fds := [some 0, some 0, some 0, some 1, some 2],
                         ofds := [some ⟨.file [], 0⟩, some ⟨n, 0⟩, some ⟨.dir, 0⟩] },
             kDup := { fds := [some 0, some 0, some 0, some 2, some 2],
                       ofds := [some ⟨.file [], 0⟩, none, some ⟨.dir, 0⟩] },
             kRead1 := { fds := [some 0, some 0, some 0, some 2, some 2],
                         ofds := [some ⟨.file [], 0⟩, none, some ⟨.dir, 0⟩] },
             r1 := -1,
             buf1 := buf,
             kClose1 := { fds := [some 0, some 0, some 0, none, some 2],
                          ofds := [some ⟨.file [], 0⟩, none, some ⟨.dir, 0⟩] },
             kRead2 := { fds := [some 0, some 0, some 0, none, some 2],
                         ofds := [some ⟨.file [], 0⟩, none, some ⟨.dir, 0⟩] },
             r2 := -1,
             buf2 := buf,
             kClose2 := { fds := [some 0, some 0, some 0, none, none],
                          ofds := [some ⟨.file [], 0⟩, none, none] },
             out := ascii "buf = " ++ [] ++ ascii "\n",
             exitCode := 0 } := by
  have hO1 : Kernel.init.open (some n) =
      ({ fds := [some 0, some 0, some 0, some 1],
         ofds := [some ⟨.file [], 0⟩, some ⟨n, 0⟩] }, 3) := rfl
  have hO2 : Kernel.«open» { fds := [some 0, some 0, some 0, some 1],
                             ofds := [some ⟨.file [], 0⟩, some ⟨n, 0⟩] } (some .dir) =
      ({ fds := [some 0, some 0, some 0, some 1, some 2],
         ofds := [some ⟨.file [], 0⟩, some ⟨n, 0⟩, some ⟨.dir, 0⟩] }, 4) := rfl
  have hD : Kernel.dup2 { fds := [some 0, some 0, some 0, some 1, some 2],
                          ofds := [some ⟨.file [], 0⟩, some ⟨n, 0⟩, some ⟨.dir, 0⟩] } 4 3 =
      ({ fds := [some 0, some 0, some 0, some 2, some 2],
         ofds := [some ⟨.file [], 0⟩, none, some ⟨.dir, 0⟩] }, 3) := rfl
  have hR1 : Kernel.read { fds := [some 0, some 0, some 0, some 2, some 2],
                           ofds := [some ⟨.file [], 0⟩, none, some ⟨.dir, 0⟩] } 3 4 =
      ({ fds := [some 0, some 0, some 0, some 2, some 2],
         ofds := [some ⟨.file [], 0⟩, none, some ⟨.dir, 0⟩] }, -1, []) := rfl
  have hC1 : Kernel.close { fds := [some 0, some 0, some 0, some 2, some 2],
                            ofds := [some ⟨.file [], 0⟩, none, some ⟨.dir, 0⟩] } 3 =
      ({ fds := [some 0, some 0, some 0, none, some 2],
         ofds := [some ⟨.file [], 0⟩, none, some ⟨.dir, 0⟩] }, 0) := rfl
  have hR2 : Kernel.read { fds := [some 0, some 0, some 0, none, some 2],
                           ofds := [some ⟨.file [], 0⟩, none, some ⟨.dir, 0⟩] } 4 6 =
      ({ fds := [some 0, some 0, some 0, none, some 2],
         ofds := [some ⟨.file [], 0⟩, none, some ⟨.dir, 0⟩] }, -1, []) := rfl
  have hC2 : Kernel.close { fds := [some 0, some 0, some 0, none, some 2],
                            ofds := [some ⟨.file [], 0⟩, none, some ⟨.dir, 0⟩] } 4 =
      ({ fds := [some 0, some 0, some 0, none, none],
         ofds := [some ⟨.file [], 0⟩, none, none] }, 0) := rfl
  have hS1 : store buf 0 [] = some buf := by decide
  have hS2 : store buf 3 [] = some buf := by decide
  have hP : printf buf = some (ascii "buf = " ++ [] ++ ascii "\n") := by decide
  unfold main
  simp only [hO1, hO2, hD, hR1, hS1, hC1, hR2, hS2, hC2, hP]

/-- A read never transfers more bytes than it was asked for. -/
theorem read_length_le (k : Kernel) (fd : Int) (count : Nat) :
    (k.read fd count).2.2.length ≤ count := by
  unfold Kernel.read
  split
  · exact Nat.zero_le _
  · split
    · exact Nat.zero_le _
    · split
      · exact Nat.zero_le _
      · exact List.length_take_le _ _

/-- Whatever the two opens return, `main` runs to completion: the two stores
stay inside the buffer and `%s` finds a zero byte inside it. -/
theorem main_shape (c1 c2 : Option Node) :
    ∃ t bs1 bs2, main c1 c2 = some t ∧ bs1.length ≤ 4 ∧ bs2.length ≤ 6 ∧
      t.buf1 = blit buf 0 bs1 ∧ t.buf2 = blit (blit buf 0 bs1) 3 bs2 ∧
      cstr t.buf2 = some (t.buf2.takeWhile (· ≠ 0)) ∧
      t.out = ascii "buf = " ++ t.buf2.takeWhile (· ≠ 0) ++ ascii "\n" ∧
      t.exitCode = 0 := by
  unfold main
  rcases hO1 : Kernel.init.open c1 with ⟨k1, fd1⟩
  dsimp only
  rcases hO2 : k1.open c2 with ⟨k2, fd2⟩
  dsimp only
  rcases hD : k2.dup2 fd2 fd1 with ⟨k3, rd⟩
  dsimp only
  rcases hR1 : k3.read fd1 4 with ⟨k4, r1, bs1⟩
  dsimp only
  rcases hC1 : k4.close fd1 with ⟨k5, rc1⟩
  dsimp only
  rcases hR2 : k5.read fd2 6 with ⟨k6, r2, bs2⟩
  dsimp only
  rcases hC2 : k6.close fd2 with ⟨k7, rc2⟩
  dsimp only
  have hb1 : bs1.length ≤ 4 := by
    have h := read_length_le k3 fd1 4
    rw [hR1] at h
    exact h
  have hb2 : bs2.length ≤ 6 := by
    have h := read_length_le k5 fd2 6
    rw [hR2] at h
    exact h
  have hL1 : (blit buf 0 bs1).length = 20 := blit_buf_length _ 0 (by omega)
  have hS1 : store buf 0 bs1 = some (blit buf 0 bs1) :=
    store_eq_blit _ _ _ (by rw [buf_length]; omega)
  have hS2 : store (blit buf 0 bs1) 3 bs2 = some (blit (blit buf 0 bs1) 3 bs2) :=
    store_eq_blit _ _ _ (by rw [hL1]; omega)
  have hZ := cstr_of_mem _ (zero_mem_blit bs1 bs2 hb1 hb2)
  have hP : printf (blit (blit buf 0 bs1) 3 bs2) =
      some (ascii "buf = " ++ (blit (blit buf 0 bs1) 3 bs2).takeWhile (· ≠ 0)
        ++ ascii "\n") := by
    rw [printf, hZ]
    rfl
  simp only [hS1, hC1, hR2, hS2, hC2, hP]
  exact ⟨_, bs1, bs2, rfl, hb1, hb2, rfl, rfl, hZ, rfl, rfl⟩

theorem takeWhile_append_zero (l r : List Byte) :
    (l ++ 0 :: r).takeWhile (· ≠ 0) = l.takeWhile (· ≠ 0) := by
  induction l with
  | nil => simp
  | cons b l ih =>
    by_cases hb : b = 0
    · simp [hb]
    · have hd : decide (b ≠ 0) = true := decide_eq_true hb
      simp only [List.cons_append, List.takeWhile_cons, hd, if_true]
      rw [ih]

theorem takeWhile_nonzero (l : List Byte) (h : ∀ b ∈ l, b ≠ 0) :
    l.takeWhile (· ≠ 0) = l := by
  induction l with
  | nil => simp
  | cons b l ih =>
    have hd : decide (b ≠ 0) = true := decide_eq_true (h b (List.mem_cons_self _ _))
    simp only [List.takeWhile_cons, hd, if_true]
    rw [ih (fun c hc => h c (List.mem_cons_of_mem _ hc))]

theorem blit_buf_zero (bs : List Byte) :
    blit buf 0 bs = bs ++ List.replicate (20 - bs.length) 0 := by
  simp only [blit, buf, List.take_zero, List.nil_append, Nat.zero_add, List.drop_replicate]

/-- The final buffer of a run on a file of at most 4 bytes: the file, then zeros. -/
theorem buf2_short (f : List Byte) (h : f.length ≤ 4) :
    blit (blit buf 0 (f.take 4)) 3 ((f.drop (f.take 4).length).take 6)
      = f ++ List.replicate (20 - f.length) 0 := by
  have h1 : f.take 4 = f := List.take_of_length_le h
  rw [h1, List.drop_of_length_le (le_refl _), blit_buf_zero]
  simp only [blit, List.take_nil, List.append_nil, List.length_nil, Nat.add_zero,
    List.take_append_drop]

/-- The final buffer of a run on a file of more than 4 bytes: bytes 0 to 2 of
the file, then up to 6 bytes from byte 4 on, then zeros. -/
theorem buf2_long (f : List Byte) (h : 4 < f.length) :
    blit (blit buf 0 (f.take 4)) 3 ((f.drop (f.take 4).length).take 6)
      = f.take 3 ++ (f.drop 4).take 6
          ++ List.replicate (17 - ((f.drop 4).take 6).length) 0 := by
  have h1 : (f.take 4).length = 4 := by rw [List.length_take]; omega
  have h2 : 1 ≤ ((f.drop 4).take 6).length := by
    rw [List.length_take, List.length_drop]; omega
  have h3 : ((f.drop 4).take 6).length ≤ 6 := List.length_take_le _ _
  rw [blit_buf_zero, h1]
  generalize (f.drop 4).take 6 = b at h2 h3 ⊢
  have h4 : (f.take 4 ++ List.replicate (20 - 4) 0).take 3 = f.take 3 := by
    rw [List.take_append_of_le_length (by omega), List.take_take]
    rfl
  have h5 : (f.take 4 ++ List.replicate (20 - 4) 0).drop (3 + b.length)
      = List.replicate (17 - b.length) 0 := by
    rw [List.drop_append_eq_append_drop, List.drop_of_length_le (by omega), h1,
      List.drop_replicate, List.nil_append]
    congr 1
    omega
  rw [blit, h4, h5]

/-! ## The printed string -/

theorem takeWhile_length_le : ∀ (l : List Byte) (i : Nat), l[i]? = some 0 →
    (l.takeWhile (· ≠ 0)).length ≤ i
  | [], _, h => by simp at h
  | b :: l, 0, h => by
    have hb : b = 0 := by simpa using h
    simp [hb]
  | b :: l, i + 1, h => by
    have h2 : l[i]? = some 0 := by simpa using h
    have ih := takeWhile_length_le l i h2
    rw [List.takeWhile_cons]
    split
    · simp only [List.length_cons]
      omega
    · simp

theorem get_takeWhile_length : ∀ (l : List Byte), 0 ∈ l →
    l[(l.takeWhile (· ≠ 0)).length]? = some 0
  | [], h => by simp at h
  | b :: l, h => by
    by_cases hb : b = 0
    · simp [hb]
    · have h2 : 0 ∈ l := by
        rcases List.mem_cons.mp h with h3 | h3
        · exact absurd h3.symm hb
        · exact h3
      have hd : decide (b ≠ 0) = true := decide_eq_true hb
      simp only [List.takeWhile_cons, hd, if_true, List.length_cons, List.getElem?_cons_succ]
      exact get_takeWhile_length l h2

theorem takeWhile_get : ∀ (l : List Byte) (i : Nat), i < (l.takeWhile (· ≠ 0)).length →
    l[i]? = (l.takeWhile (· ≠ 0))[i]? ∧ (l.takeWhile (· ≠ 0))[i]? ≠ some 0
  | [], i, h => by simp at h
  | b :: l, i, h => by
    by_cases hb : b = 0
    · simp [hb] at h
    · have hd : decide (b ≠ 0) = true := decide_eq_true hb
      simp only [List.takeWhile_cons, hd, if_true] at h ⊢
      cases i with
      | zero =>
        simp only [List.getElem?_cons_zero]
        exact ⟨trivial, fun h0 => hb (Option.some.inj h0)⟩
      | succ j =>
        simp only [List.getElem?_cons_succ]
        exact takeWhile_get l j (by simpa using h)

/-- Bytes [4, min(10, n)) of a file are its (at most) 6 bytes from byte 4 on. -/
theorem segment_eq (f : List Byte) :
    (f.take (min 10 f.length)).drop 4 = (f.drop 4).take 6 := by
  rw [List.drop_take, List.take_eq_take]
  simp only [List.length_drop]
  omega

theorem eraseIdx_three (f : List Byte) :
    (f.take 10).eraseIdx 3 = f.take 3 ++ (f.drop 4).take 6 := by
  rw [List.eraseIdx_eq_take_drop_succ, List.take_take, List.drop_take]
  rfl

/-- What `%s` prints after a run on a file of more than 4 bytes. -/
theorem printed_long (f : List Byte) (h : 4 < f.length) :
    (blit (blit buf 0 (f.take 4)) 3 ((f.drop (f.take 4).length).take 6)).takeWhile (· ≠ 0)
      = (f.take 3 ++ (f.drop 4).take 6).takeWhile (· ≠ 0) := by
  have hlen : ((f.drop 4).take 6).length ≤ 6 := List.length_take_le _ _
  have hz : List.replicate (17 - ((f.drop 4).take 6).length) (0 : Byte)
      = 0 :: List.replicate (16 - ((f.drop 4).take 6).length) 0 := by
    rw [← List.replicate_succ]
    congr 1
    omega
  rw [buf2_long f h, hz, takeWhile_append_zero]

/-- What `%s` prints after a run on a file of at most 4 bytes. -/
theorem printed_short (f : List Byte) (h : f.length ≤ 4) :
    (blit (blit buf 0 (f.take 4)) 3 ((f.drop (f.take 4).length).take 6)).takeWhile (· ≠ 0)
      = f.takeWhile (· ≠ 0) := by
  have hz : List.replicate (20 - f.length) (0 : Byte)
      = 0 :: List.replicate (19 - f.length) 0 := by
    rw [← List.replicate_succ]
    congr 1
    omega
  rw [buf2_short f h, hz, takeWhile_append_zero]

theorem nonzero_segments (f : List Byte) (hnz : ∀ b ∈ f.take 10, b ≠ 0) :
    ∀ b ∈ f.take 3 ++ (f.drop 4).take 6, b ≠ 0 := by
  intro b hb
  rw [← eraseIdx_three] at hb
  exact hnz b (List.mem_of_mem_eraseIdx hb)

theorem run_cstr (f : List Byte) :
    cstr (blit (blit buf 0 (f.take 4)) 3 ((f.drop (f.take 4).length).take 6))
      = some ((blit (blit buf 0 (f.take 4)) 3
          ((f.drop (f.take 4).length).take 6)).takeWhile (· ≠ 0)) :=
  cstr_of_mem _ (zero_mem_blit _ _ (List.length_take_le _ _) (List.length_take_le _ _))


/-! ## The claims -/

/-- C1, counterexample.  On the 10-byte file `ABCDEFGHIJ` the program prints
`buf = ABCEFGHIJ`: nine characters, the last one being byte 9 of the file, and
not the first 3 bytes followed by bytes [4, 9). -/
theorem ten_byte_file_prints_nine :
    9 ≤ (ascii "ABCDEFGHIJ").length ∧
    (run (ascii "ABCDEFGHIJ")).map Trace.out = some (ascii "buf = ABCEFGHIJ\n") ∧
    (run (ascii "ABCDEFGHIJ")).map Trace.out ≠
      some (ascii "buf = " ++ ((ascii "ABCDEFGHIJ").take 3
        ++ ((ascii "ABCDEFGHIJ").drop 4).take 5) ++ ascii "\n") := by
  decide

/-- C1, amended.  For every content of `cookie.txt` of at least 9 bytes the
string printed after `buf = ` is the part before the first zero byte of: the
first 3 bytes of the file followed by bytes [4, min(10, n)) of the file.  When
none of the first 10 bytes of the file is zero it is that whole sequence, and
for a 9-byte file that is file[0], file[1], file[2], file[4], ..., file[8]. -/
theorem printed_of_length_ge_nine (f : List Byte) (h : 9 ≤ f.length) :
    ∃ t s, run f = some t ∧ cstr t.buf2 = some s ∧
      t.out = ascii "buf = " ++ s ++ ascii "\n" ∧
      s = (f.take 3 ++ (f.take (min 10 f.length)).drop 4).takeWhile (· ≠ 0) ∧
      ((∀ b ∈ f.take 10, b ≠ 0) → s = f.take 3 ++ (f.take (min 10 f.length)).drop 4) ∧
      ((∀ b ∈ f, b ≠ 0) → f.length = 9 → s = f.take 3 ++ (f.take 9).drop 4) := by
  have hs := printed_long f (by omega)
  rw [← segment_eq] at hs
  refine ⟨_, _, main_both (.file f) f, run_cstr f, rfl, hs, ?_, ?_⟩
  · intro hnz
    rw [hs, segment_eq]
    exact takeWhile_nonzero _ (nonzero_segments f hnz)
  · intro hnz h9
    have h10 : min 10 f.length = 9 := by omega
    rw [hs, segment_eq, ← h10, segment_eq]
    exact takeWhile_nonzero _
      (nonzero_segments f (fun b hb => hnz b (List.mem_of_mem_take hb)))

/-- C1, witness of the amended claim on the 10-byte file `ABCDEFGHIJ`. -/
theorem printed_of_length_ge_nine_witness :
    9 ≤ (ascii "ABCDEFGHIJ").length ∧
    ∃ t s, run (ascii "ABCDEFGHIJ") = some t ∧ cstr t.buf2 = some s ∧
      t.out = ascii "buf = " ++ s ++ ascii "\n" ∧
      s = ((ascii "ABCDEFGHIJ").take 3 ++ ((ascii "ABCDEFGHIJ").take
        (min 10 (ascii "ABCDEFGHIJ").length)).drop 4).takeWhile (· ≠ 0) ∧
      ((∀ b ∈ (ascii "ABCDEFGHIJ").take 10, b ≠ 0) →
        s = (ascii "ABCDEFGHIJ").take 3 ++ ((ascii "ABCDEFGHIJ").take
          (min 10 (ascii "ABCDEFGHIJ").length)).drop 4) ∧
      ((∀ b ∈ ascii "ABCDEFGHIJ", b ≠ 0) → (ascii "ABCDEFGHIJ").length = 9 →
        s = (ascii "ABCDEFGHIJ").take 3 ++ ((ascii "ABCDEFGHIJ").take 9).drop 4) :=
  ⟨by decide, printed_of_length_ge_nine (ascii "ABCDEFGHIJ") (by decide)⟩

/-- C2.  With `cookie.txt` holding exactly the 9 bytes `ABCDEFGHI`, the final
20-byte buffer of `main` is `A B C E F G H I` followed by 12 zero bytes, and
`main` prints exactly the line `buf = ABCEFGHI`. -/
theorem abcdefghi_buffer_and_output :
    (ascii "ABCDEFGHI").length = 9 ∧
    (run (ascii "ABCDEFGHI")).map Trace.buf2
      = some (ascii "ABCEFGHI" ++ List.replicate 12 0) ∧
    (ascii "ABCEFGHI" ++ List.replicate 12 (0 : Byte)).length = 20 ∧
    (run (ascii "ABCDEFGHI")).map Trace.out = some (ascii "buf = ABCEFGHI\n") := by
  decide

/-- C3.  When `cookie.txt` is missing both opens return -1; `dup2`, both reads
and both closes fail and leave the kernel state and the buffer as they were,
so the buffer is all zero at the end, the output is `buf = ` followed by the
empty string and a newline, and the exit code is 0. -/
theorem missing_file_prints_empty :
    main none none =
      some { fd1 := -1, fd2 := -1,
             kOpen1 := Kernel.init, kOpen2 := Kernel.init, kDup := Kernel.init,
             kRead1 := Kernel.init, r1 := -1, buf1 := List.replicate 20 0,
             kClose1 := Kernel.init, kRead2 := Kernel.init, r2 := -1,
             buf2 := List.replicate 20 0, kClose2 := Kernel.init,
             out := ascii "buf = " ++ [] ++ ascii "\n", exitCode := 0 } := by
  decide

/-- C4, counterexample.  On an empty `cookie.txt` the read through fd1 leaves
the shared cursor at 0, so the read through fd2 does start at offset 0. -/
theorem empty_file_second_read_at_zero :
    (run []).map (fun t => (t.kRead1.cursor t.fd1, t.kClose1.cursor t.fd2))
      = some (some 0, some 0) := by
  decide

/-- C4, amended.  For every file content, after `dup2(fd2, fd1)` the two
descriptors refer to one description, hence one cursor; the read of up to 4
bytes through fd1 leaves that cursor at min(4, n), fd1 is then closed, and the
read of up to 6 bytes through fd2 starts at that same offset min(4, n) and
stores the file bytes from there on at `buf[3]`.  That offset is 4 for a file
of at least 4 bytes, and it is not 0 unless the file is empty. -/
theorem second_read_starts_at_shared_cursor (f : List Byte) :
    ∃ t d, run f = some t ∧
      t.kDup.desc t.fd1 = some d ∧ t.kDup.desc t.fd2 = some d ∧
      t.kDup.cursor t.fd1 = some 0 ∧ t.kDup.cursor t.fd2 = some 0 ∧
      t.kRead1.cursor t.fd1 = some (min 4 f.length) ∧
      t.kRead1.cursor t.fd2 = some (min 4 f.length) ∧
      t.kClose1.desc t.fd1 = none ∧
      t.kClose1.cursor t.fd2 = some (min 4 f.length) ∧
      t.kClose1.read t.fd2 6
        = (t.kRead2, t.r2, (f.drop (min 4 f.length)).take 6) ∧
      t.buf2 = blit t.buf1 3 ((f.drop (min 4 f.length)).take 6) ∧
      (4 ≤ f.length → min 4 f.length = 4) ∧
      (f ≠ [] → min 4 f.length ≠ 0) := by
  have hl : (f.take 4).length = min 4 f.length := List.length_take _ _
  refine ⟨_, 2, main_both (.file f) f, rfl, rfl, rfl, rfl, ?_, ?_, rfl, ?_, ?_, ?_, ?_, ?_⟩
  · exact congrArg some hl
  · exact congrArg some hl
  · exact congrArg some hl
  · rw [← hl]
    rfl
  · rw [← hl]
  · intro h4
    omega
  · intro hne
    have : 0 < f.length := List.length_pos.mpr hne
    omega

/-- C5.  For every file content, short files included, the first read stores
exactly min(4, n - 0) bytes, the file bytes from the cursor 0 on, at buffer
index 0 on, and leaves the shared cursor at c = min(4, n); the second read
starts from that same cursor c and stores exactly min(6, n - c) bytes, the
file bytes from c on, at buffer index 3 on; every other cell of the 20-byte
buffer keeps the value it had before that read, which is zero before the
first read. -/
theorem reads_store_min_and_frame (f : List Byte) :
    ∃ t c, run f = some t ∧
      t.kDup.cursor t.fd1 = some 0 ∧
      t.r1 = ((min 4 (f.length - 0) : Nat) : Int) ∧
      t.buf1.length = 20 ∧
      (∀ i, i < 20 → buf[i]? = some 0) ∧
      (∀ i, i < 20 → t.buf1[i]? =
        if i < min 4 (f.length - 0) then f[i]? else buf[i]?) ∧
      t.kRead1.cursor t.fd1 = some c ∧
      t.kRead1.cursor t.fd2 = some c ∧
      c = 0 + min 4 (f.length - 0) ∧
      c = min 4 f.length ∧
      t.kClose1.cursor t.fd2 = some c ∧
      t.r2 = ((min 6 (f.length - c) : Nat) : Int) ∧
      t.buf2.length = 20 ∧
      (∀ i, i < 20 → t.buf2[i]? =
        if 3 ≤ i ∧ i < 3 + min 6 (f.length - c) then f[c + (i - 3)]? else t.buf1[i]?) ∧
      t.kRead2.cursor t.fd2 = some (c + min 6 (f.length - c)) := by
  have hl : (f.take 4).length = min 4 f.length := List.length_take _ _
  have hl2 : ((f.drop (f.take 4).length).take 6).length
      = min 6 (f.length - (f.take 4).length) := by
    rw [List.length_take, List.length_drop]
  have hL1 : (blit buf 0 (f.take 4)).length = 20 := blit_buf_length _ 0 (by omega)
  have hL2 : (blit (blit buf 0 (f.take 4)) 3 ((f.drop (f.take 4).length).take 6)).length
      = 20 := by
    rw [blit_length _ _ _ (by rw [hL1, hl2]; omega), hL1]
  refine ⟨_, (f.take 4).length, main_both (.file f) f, rfl, ?_, hL1, buf_get, ?_, rfl, rfl,
    ?_, hl, rfl, ?_, hL2, ?_, ?_⟩
  · show (((f.take 4).length : Nat) : Int) = _
    rw [hl, Nat.sub_zero]
  · intro i _
    show (blit buf 0 (f.take 4))[i]? = _
    rw [blit_get _ _ _ _ (by rw [buf_length]; omega)]
    simp only [hl, Nat.sub_zero, Nat.zero_add, Nat.zero_le, true_and]
    by_cases hi : i < min 4 f.length
    · rw [if_pos hi, if_pos hi, List.getElem?_take_of_lt (by omega)]
    · rw [if_neg hi, if_neg hi]
  · rw [hl, Nat.sub_zero, Nat.zero_add]
  · show ((((f.drop (f.take 4).length).take 6).length : Nat) : Int) = _
    rw [hl2]
  · intro i _
    show (blit (blit buf 0 (f.take 4)) 3 ((f.drop (f.take 4).length).take 6))[i]? = _
    rw [blit_get _ _ _ _ (by rw [hL1, hl2]; omega), hl2]
    by_cases hi : 3 ≤ i ∧ i < 3 + min 6 (f.length - (f.take 4).length)
    · rw [if_pos hi, if_pos hi, List.getElem?_take_of_lt (by omega), List.getElem?_drop]
    · rw [if_neg hi, if_neg hi]
  · show some ((f.take 4).length + ((f.drop (f.take 4).length).take 6).length) = _
    rw [hl2]

/-- C6.  For every file content of length n, after the first read (up to 4
bytes through fd1 into buffer index 0) the shared cursor, which was 0, is at
min(4, n) and the first min(4, n) buffer cells hold the first min(4, n) bytes
of the file; for the file `ABCDEFGHI` the first 4 cells are `ABCD` and the
cursor is at 4. -/
theorem first_read_cursor_and_prefix (f : List Byte) :
    (∃ t, run f = some t ∧
      t.kDup.cursor t.fd1 = some 0 ∧
      t.kRead1.cursor t.fd1 = some (min 4 f.length) ∧
      t.kRead1.cursor t.fd2 = some (min 4 f.length) ∧
      t.buf1.take (min 4 f.length) = f.take (min 4 f.length)) ∧
    (run (ascii "ABCDEFGHI")).map
        (fun t => (t.buf1.take 4, t.kRead1.cursor t.fd1, t.kRead1.cursor t.fd2))
      = some (ascii "ABCD", some 4, some 4) := by
  have hl : (f.take 4).length = min 4 f.length := List.length_take _ _
  refine ⟨⟨_, main_both (.file f) f, rfl, congrArg some hl, congrArg some hl, ?_⟩, by decide⟩
  show (blit buf 0 (f.take 4)).take (min 4 f.length) = _
  rw [blit_buf_zero, List.take_append_of_le_length (by omega), List.take_take]
  congr 1
  omega

/-- C7.  When both opens succeed, on a regular file or on a directory, the
two descriptors are distinct and refer to distinct descriptions d1 and d2;
`dup2(fd2, fd1)` returns fd1, and right after it both fd1 and fd2 refer to d2,
which is the one description the two descriptors reference, while d1, the
description opened for fd1, has no reference left and has been freed. -/
theorem dup2_leaves_one_description (n1 n2 : Node) :
    ∃ t d1 d2, main (some n1) (some n2) = some t ∧
      t.fd1 ≠ t.fd2 ∧ 0 ≤ t.fd1 ∧ 0 ≤ t.fd2 ∧
      t.kOpen2.desc t.fd1 = some d1 ∧ t.kOpen2.desc t.fd2 = some d2 ∧ d1 ≠ d2 ∧
      t.kOpen2.refs d1 = 1 ∧ t.kOpen2.live d1 = true ∧
      t.kOpen2.dup2 t.fd2 t.fd1 = (t.kDup, t.fd1) ∧
      t.kDup.desc t.fd1 = some d2 ∧ t.kDup.desc t.fd2 = some d2 ∧
      t.kDup.refs d2 = 2 ∧ t.kDup.live d2 = true ∧
      t.kDup.ofdOf t.fd1 = t.kOpen2.ofdOf t.fd2 ∧
      t.kDup.refs d1 = 0 ∧ t.kDup.live d1 = false := by
  cases n2 with
  | file g =>
    refine ⟨_, 1, 2, main_both n1 g, ?_, ?_, ?_, rfl, rfl, ?_,
      rfl, rfl, rfl, rfl, rfl, rfl, rfl, rfl, rfl, rfl⟩
    · show (3 : Int) ≠ 4
      decide
    · show (0 : Int) ≤ 3
      decide
    · show (0 : Int) ≤ 4
      decide
    · decide
  | dir =>
    refine ⟨_, 1, 2, main_dir n1, ?_, ?_, ?_, rfl, rfl, ?_,
      rfl, rfl, rfl, rfl, rfl, rfl, rfl, rfl, rfl, rfl⟩
    · show (3 : Int) ≠ 4
      decide
    · show (0 : Int) ≤ 3
      decide
    · show (0 : Int) ≤ 4
      decide
    · decide

/-- C8, counterexample.  When `cookie.txt` is a directory both opens succeed
(they return the descriptors 3 and 4), `close(fd1)` leaves the shared
description referenced by fd2, and yet the read through fd2 fails: it
returns -1. -/
theorem directory_second_read_fails :
    (main (some .dir) (some .dir)).map
        (fun t => (t.fd1, t.fd2, t.kClose1.desc t.fd2, t.kClose1.live 2, t.r2))
      = some (3, 4, some 2, true, -1) := by
  decide

/-- C8, amended.  When both opens succeed, on a regular file or on a
directory, `close(fd1)` closes the descriptor fd1 only: the shared description
stays allocated, referenced by fd2; after `close(fd2)` neither descriptor is
open, and no description created by the program (index at least 1, index 0
being the terminal) is referenced or allocated any more.  The read through
fd2 between the two closes succeeds (it returns a byte count, not -1) when
`cookie.txt` is a regular file, and returns -1 when it is a directory. -/
theorem closes_release_in_order (n1 n2 : Node) :
    ∃ t d, main (some n1) (some n2) = some t ∧
      t.kRead1.close t.fd1 = (t.kClose1, 0) ∧
      t.kClose1.desc t.fd1 = none ∧ t.kClose1.desc t.fd2 = some d ∧
      t.kClose1.refs d = 1 ∧ t.kClose1.live d = true ∧
      t.kClose1.ofdOf t.fd2 = t.kRead1.ofdOf t.fd2 ∧
      (∀ g, n2 = .file g →
        0 ≤ t.r2 ∧ t.r2 = ((min 6 (g.length - min 4 g.length) : Nat) : Int)) ∧
      (n2 = .dir → t.r2 = -1) ∧
      t.kRead2.close t.fd2 = (t.kClose2, 0) ∧
      t.kClose2.desc t.fd1 = none ∧ t.kClose2.desc t.fd2 = none ∧
      (∀ d, Kernel.init.ofds.length ≤ d →
        t.kClose2.refs d = 0 ∧ t.kClose2.live d = false) := by
  have hfinal : ∀ d, Kernel.init.ofds.length ≤ d →
      Kernel.refs { fds := [some 0, some 0, some 0, none, none],
                    ofds := [some ⟨.file [], 0⟩, none, none] } d = 0 ∧
      Kernel.live { fds := [some 0, some 0, some 0, none, none],
                    ofds := [some ⟨.file [], 0⟩, none, none] } d = false := by
    intro d hd
    have hd1 : 1 ≤ d := hd
    constructor
    · show List.count (some d) [some 0, some 0, some 0, none, none] = 0
      have h0 : ¬ (0 = d) := by omega
      simp [List.count_cons, h0]
    · show ((([some ⟨.file [], 0⟩, none, none] : List (Option OFD)).get? d).join).isSome
        = false
      rcases d with _ | _ | _ | d
      · omega
      · rfl
      · rfl
      · rfl
  cases n2 with
  | file g =>
    refine ⟨_, 2, main_both n1 g, rfl, rfl, rfl, rfl, rfl, rfl, ?_, ?_, rfl, rfl, rfl,
      hfinal⟩
    · intro g2 hg
      have hgg : g = g2 := Node.file.inj hg
      subst hgg
      constructor
      · exact Int.ofNat_nonneg _
      · show ((((g.drop (g.take 4).length).take 6).length : Nat) : Int) = _
        rw [List.length_take, List.length_drop, List.length_take]
    · intro h
      exact Node.noConfusion h
  | dir =>
    refine ⟨_, 2, main_dir n1, rfl, rfl, rfl, rfl, rfl, rfl, ?_, ?_, rfl, rfl, rfl,
      hfinal⟩
    · intro g h
      exact Node.noConfusion h
    · intro _
      rfl

/-- C9.  For every file content of length n with no zero byte among its first
10 bytes, the string printed after `buf = ` is the whole file when n ≤ 4, and
otherwise the first 3 bytes followed by bytes [4, min(10, n)), that is the
first 10 bytes of the file with byte 3 left out; so byte 3 is printed only
when n ≤ 4 (as the last byte of a 4-byte file), and for n ≥ 10 the printed
string has 9 characters. -/
theorem printed_without_zero_byte (f : List Byte) (hnz : ∀ b ∈ f.take 10, b ≠ 0) :
    ∃ t s, run f = some t ∧ cstr t.buf2 = some s ∧
      t.out = ascii "buf = " ++ s ++ ascii "\n" ∧
      (f.length ≤ 4 → s = f) ∧
      (4 < f.length → s = f.take 3 ++ (f.take (min 10 f.length)).drop 4) ∧
      (4 < f.length → s = (f.take 10).eraseIdx 3) ∧
      (f.length = 4 → s[3]? = f[3]?) ∧
      (4 < f.length → ∀ i, 3 ≤ i → s[i]? = (f.take 10)[i + 1]?) ∧
      (10 ≤ f.length → s.length = 9) := by
  have hlong : 4 < f.length →
      (blit (blit buf 0 (f.take 4)) 3 ((f.drop (f.take 4).length).take 6)).takeWhile (· ≠ 0)
        = f.take 3 ++ (f.drop 4).take 6 := by
    intro h
    rw [printed_long f h]
    exact takeWhile_nonzero _ (nonzero_segments f hnz)
  have hshort : f.length ≤ 4 →
      (blit (blit buf 0 (f.take 4)) 3 ((f.drop (f.take 4).length).take 6)).takeWhile (· ≠ 0)
        = f := by
    intro h
    rw [printed_short f h]
    apply takeWhile_nonzero
    intro b hb
    have h10 : f.take 10 = f := List.take_of_length_le (by omega)
    exact hnz b (by rw [h10]; exact hb)
  refine ⟨_, _, main_both (.file f) f, run_cstr f, rfl, hshort, ?_, ?_, ?_, ?_, ?_⟩
  · intro h
    rw [hlong h, segment_eq]
  · intro h
    rw [hlong h, eraseIdx_three]
  · intro h
    rw [hshort (by omega)]
  · intro h i hi
    rw [hlong h, ← eraseIdx_three, List.getElem?_eraseIdx, if_neg (by omega)]
  · intro h
    rw [hlong (by omega)]
    simp only [List.length_append, List.length_take, List.length_drop]
    omega

/-- C9, witness on the 12-byte file `ABCDEFGHIJKL`. -/
theorem printed_without_zero_byte_witness :
    (∀ b ∈ (ascii "ABCDEFGHIJKL").take 10, b ≠ 0) ∧
    ∃ t s, run (ascii "ABCDEFGHIJKL") = some t ∧ cstr t.buf2 = some s ∧
      t.out = ascii "buf = " ++ s ++ ascii "\n" ∧
      ((ascii "ABCDEFGHIJKL").length ≤ 4 → s = ascii "ABCDEFGHIJKL") ∧
      (4 < (ascii "ABCDEFGHIJKL").length →
        s = (ascii "ABCDEFGHIJKL").take 3
          ++ ((ascii "ABCDEFGHIJKL").take (min 10 (ascii "ABCDEFGHIJKL").length)).drop 4) ∧
      (4 < (ascii "ABCDEFGHIJKL").length → s = ((ascii "ABCDEFGHIJKL").take 10).eraseIdx 3) ∧
      ((ascii "ABCDEFGHIJKL").length = 4 → s[3]? = (ascii "ABCDEFGHIJKL")[3]?) ∧
      (4 < (ascii "ABCDEFGHIJKL").length →
        ∀ i, 3 ≤ i → s[i]? = ((ascii "ABCDEFGHIJKL").take 10)[i + 1]?) ∧
      (10 ≤ (ascii "ABCDEFGHIJKL").length → s.length = 9) :=
  ⟨by set_option maxRecDepth 4096 in decide,
    printed_without_zero_byte (ascii "ABCDEFGHIJKL")
      (by set_option maxRecDepth 4096 in decide)⟩

/-- C10.  For every outcome of the two opens (failure, success on a regular
file of any content, success on a directory), `main` runs to completion with
exit code 0; neither read changes a buffer cell of
index 9 or more, so cells 9 to 19 are zero when `printf` runs; the scan of
`%s` therefore stops at a zero byte of index at most 9, inside the 20-byte
buffer, and the printed string has at most 9 characters. -/
theorem printing_stays_in_buffer (c1 c2 : Option Node) :
    ∃ t s, main c1 c2 = some t ∧ t.exitCode = 0 ∧
      t.buf1.length = 20 ∧ t.buf2.length = 20 ∧
      (∀ i, 9 ≤ i → i < 20 → t.buf1[i]? = buf[i]? ∧ t.buf2[i]? = t.buf1[i]?) ∧
      (∀ i, 9 ≤ i → i < 20 → t.buf2[i]? = some 0) ∧
      cstr t.buf2 = some s ∧
      t.out = ascii "buf = " ++ s ++ ascii "\n" ∧
      s.length ≤ 9 ∧ s.length < t.buf2.length ∧ t.buf2[s.length]? = some 0 ∧
      (∀ i, i < s.length → t.buf2[i]? = s[i]? ∧ s[i]? ≠ some 0) := by
  obtain ⟨t, bs1, bs2, hmain, hb1, hb2, h1, h2, hc, hout, hexit⟩ := main_shape c1 c2
  have hL1 : (blit buf 0 bs1).length = 20 := blit_buf_length _ 0 (by omega)
  have hL2 : (blit (blit buf 0 bs1) 3 bs2).length = 20 := by
    rw [blit_length _ _ _ (by rw [hL1]; omega), hL1]
  have hz := zero_mem_blit bs1 bs2 hb1 hb2
  have hle : (t.buf2.takeWhile (· ≠ 0)).length ≤ 9 := by
    rw [h2]
    exact takeWhile_length_le _ 9 (blit_tail_zero bs1 bs2 hb1 hb2 9 (by omega) (by omega))
  refine ⟨t, _, hmain, hexit, h1 ▸ hL1, h2 ▸ hL2, ?_, ?_, hc, hout, hle, ?_, ?_, ?_⟩
  · intro i h9 h20
    constructor
    · rw [h1, blit_get _ _ _ _ (by rw [buf_length]; omega), if_neg (by omega)]
    · rw [h2, h1, blit_get _ _ _ _ (by rw [hL1]; omega), if_neg (by omega)]
  · intro i h9 h20
    rw [h2]
    exact blit_tail_zero bs1 bs2 hb1 hb2 i h9 h20
  · rw [h2] at hle ⊢
    rw [hL2]
    omega
  · rw [h2]
    exact get_takeWhile_length _ hz
  · intro i hi
    exact takeWhile_get _ i hi

end Rdiff
